import Mathlib

/-!
Shallow embedding of calc.py: a resumable brute-force search over powers of
two whose decimal representation avoids the digits 1, 2, 4 and 8.  The
checkpoint file holds the next exponent to test as decimal text; qualifying
values of 2 ^ n are appended, one per line, to the results file.
-/

/-- Line 9 of calc.py: digits = {"1", "2", "4", "8"}, the forbidden set. -/
def digits : List Char := ['1', '2', '4', '8']

/-- Lines 7-10 of calc.py (the spec names this predicate qualifies):
int_full_number = 2 ** int_current_position,
str_full_number = str(int_full_number), and the test
not any(char in digits for char in str_full_number). -/
def qualifies (int_current_position : Nat) : Bool :=
  let int_full_number := 2 ^ int_current_position
  let str_full_number := Nat.repr int_full_number
  ! str_full_number.data.any (fun char => digits.contains char)

/-- One accumulation step of base-10 parsing: the running value times ten
plus the value of the next character. -/
def accDigit (acc : Nat) (c : Char) : Nat := 10 * acc + (c.toNat - 48)

/-- The ten decimal digit characters, the only characters Nat.repr emits. -/
def decChars : List Char := ['0', '1', '2', '3', '4', '5', '6', '7', '8', '9']

/-- The strip performed by int() on its string argument: whitespace is
removed from both ends. -/
def pyStrip (l : List Char) : List Char :=
  ((l.dropWhile Char.isWhitespace).reverse.dropWhile Char.isWhitespace).reverse

/-- A nonempty run of ASCII digits parsed as a base-10 natural number;
anything else is a parse failure. -/
def parseDigits (l : List Char) : Option Nat :=
  if l ≠ [] ∧ l.all Char.isDigit then some (l.foldl accDigit 0) else none

/-- int(s) as applied on line 4 of calc.py: strip surrounding whitespace,
allow one optional sign, then require a nonempty digit run; none models the
ValueError raised otherwise.  (Underscore separators and non-ASCII digits,
which CPython also accepts, are not modelled; no claim involves them.) -/
def pythonInt (s : String) : Option Int :=
  match pyStrip s.data with
  | [] => none
  | c :: rest =>
    if c = '+' then (parseDigits rest).map Int.ofNat
    else if c = '-' then (parseDigits rest).map (fun n => -(n : Int))
    else (parseDigits (c :: rest)).map Int.ofNat

/-- Lines 15-19 of calc.py: find_position opens the checkpoint file and
returns its entire contents; a missing file (modelled as none) means open
raises and no string is produced. -/
def find_position (in_file : Option String) : Option String := in_file

/-- Lines 22-27 of calc.py: append_if_answer_found opens out_file in append
mode (which creates it when absent, starting from the empty file) and
performs two writes: str(full_number), then a newline. -/
def append_if_answer_found (out_file : Option String) (full_number : Nat) : String :=
  let file0 := out_file.getD ""
  let file1 := file0 ++ Nat.repr full_number
  file1 ++ "\n"

/-- Lines 30-34 of calc.py: increment_in_file opens the checkpoint file in
truncate mode and writes str(num_to_write); the new contents fully replace
the old ones. -/
def increment_in_file (num_to_write : Nat) : String := Nat.repr num_to_write

/-- The two files the program touches; none models an absent file. -/
structure Files where
  in_file : Option String
  out_file : Option String
  deriving DecidableEq

/-- One iteration of the while-loop of main (lines 2-12) at file level.
none models an uncaught exception killing the process before any write has
happened in that iteration: the checkpoint file missing (open raises) or
int() failing to parse its contents.  A checkpoint parsing as a negative
integer would send CPython into floating-point arithmetic at 2 ** n; that
branch lies outside every claim and is not modelled (mapped to none). -/
def iterOnce (fs : Files) : Option Files :=
  match find_position fs.in_file with
  | none => none
  | some str_current_position =>
    match pythonInt str_current_position with
    | none => none
    | some (Int.negSucc _) => none
    | some (Int.ofNat int_current_position) =>
      some { in_file := some (increment_in_file (int_current_position + 1))
             out_file :=
               if qualifies int_current_position
               then some (append_if_answer_found fs.out_file (2 ^ int_current_position))
               else fs.out_file }

/-- Abstract state of the driver loop: the integer in the checkpoint file,
the values appended to the results file so far (in order), the exponents
printed to stdout, and the exponents already tested (ghost history). -/
structure LoopState where
  checkpoint : Nat
  results : List Nat
  printed : List Nat
  tested : List Nat
  deriving DecidableEq

/-- One full iteration of main (lines 3-12) as a state transformer, for a
well-formed checkpoint: read n, print n when n % 1000 == 0, append 2 ^ n
when it qualifies, then write back n + 1. -/
def step (s : LoopState) : LoopState :=
  let n := s.checkpoint
  { checkpoint := n + 1
    results := s.results ++ (if qualifies n then [2 ^ n] else [])
    printed := s.printed ++ (if n % 1000 = 0 then [n] else [])
    tested := s.tested ++ [n] }

/-- A run started with checkpoint k, after earlier runs tested exactly the
exponents below k; results records only what this run appends. -/
def initState (k : Nat) : LoopState :=
  { checkpoint := k, results := [], printed := [], tested := List.range k }

/-- The invariant of section 3 of the design: the checkpoint holds the next
untested exponent, everything strictly below it has been tested, and every
qualifying power of two below it is already in the results file. -/
def LoopInv (s : LoopState) : Prop :=
  s.tested = List.range s.checkpoint ∧
  s.results = ((List.range s.checkpoint).filter qualifies).map (fun n => 2 ^ n)

/-- Observable events of one iteration of main, in program order. -/
inductive Event where
  | printedEv : Nat → Event
  | appendedEv : Nat → Event
  | wroteCheckpoint : Nat → Event
  deriving DecidableEq

/-- Detects a checkpoint-file write event. -/
def isCheckpointWrite : Event → Bool
  | Event.wroteCheckpoint _ => true
  | _ => false

/-- The event trace of one iteration of main testing exponent n, in source
order: the conditional print (lines 5-6), the conditional append
(lines 10-11), then the unconditional checkpoint write (line 12). -/
def iterEvents (n : Nat) : List Event :=
  (if n % 1000 = 0 then [Event.printedEv n] else []) ++
    (if qualifies n then [Event.appendedEv (2 ^ n)] else []) ++
      [Event.wroteCheckpoint (n + 1)]

example : qualifies 0 = false := by decide
example : qualifies 16 = true := by decide
example : pythonInt "  42\n" = some 42 := by decide
example : pythonInt "abc" = none := by decide
example : pythonInt "" = none := by decide
example : iterOnce { in_file := some "3", out_file := some "" } =
    some { in_file := some "4", out_file := some "" } := by decide

lemma iterate_checkpoint : ∀ (t : Nat) (s : LoopState),
    (step^[t] s).checkpoint = s.checkpoint + t := by
  intro t
  induction t with
  | zero => intro s; simp
  | succ t ih =>
    intro s
    rw [Function.iterate_succ_apply, ih (step s)]
    simp [step]
    omega

lemma iterate_tested : ∀ (t : Nat) (s : LoopState),
    (step^[t] s).tested = s.tested ++ List.range' s.checkpoint t := by
  intro t
  induction t with
  | zero => intro s; simp
  | succ t ih =>
    intro s
    rw [Function.iterate_succ_apply, ih (step s)]
    simp [step, List.range'_succ]

lemma iterate_results : ∀ (t : Nat) (s : LoopState),
    (step^[t] s).results =
      s.results ++ ((List.range' s.checkpoint t).filter qualifies).map (fun n => 2 ^ n) := by
  intro t
  induction t with
  | zero => intro s; simp
  | succ t ih =>
    intro s
    rw [Function.iterate_succ_apply, ih (step s)]
    cases hq : qualifies s.checkpoint <;>
      simp [step, hq, List.range'_succ, List.filter_cons]

lemma iterate_printed : ∀ (t : Nat) (s : LoopState),
    (step^[t] s).printed =
      s.printed ++ (List.range' s.checkpoint t).filter (fun n => decide (n % 1000 = 0)) := by
  intro t
  induction t with
  | zero => intro s; simp
  | succ t ih =>
    intro s
    rw [Function.iterate_succ_apply, ih (step s)]
    by_cases hp : s.checkpoint % 1000 = 0 <;>
      simp [step, hp, List.range'_succ, List.filter_cons]

/-- C2: after every completed iteration the checkpoint file holds the next
untested exponent: all exponents strictly below it have been tested and each
qualifying power of two among them has been appended to the results file; the
invariant holds in every state the loop step can reach from a valid one. -/
theorem loop_invariant_preserved (t : Nat) (s : LoopState) (h : LoopInv s) :
    LoopInv (step^[t] s) := by
  obtain ⟨ht, hr⟩ := h
  constructor
  · rw [iterate_tested, iterate_checkpoint, ht, List.range_eq_range',
      List.range_eq_range', Nat.add_comm s.checkpoint t,
      ← List.range'_append_1 0 s.checkpoint t]
    simp
  · rw [iterate_results, iterate_checkpoint, hr, List.range_eq_range',
      List.range_eq_range', Nat.add_comm s.checkpoint t,
      ← List.range'_append_1 0 s.checkpoint t]
    simp [List.filter_append]

theorem loop_invariant_witness :
    LoopInv (initState 0) ∧ LoopInv (step^[2] (initState 0)) :=
  ⟨⟨rfl, rfl⟩, loop_invariant_preserved 2 (initState 0) ⟨rfl, rfl⟩⟩

/-- C3: each iteration tests exactly the exponent stored in the checkpoint
and then overwrites the checkpoint with that exponent plus one (exactly one
checkpoint write per iteration, whether or not the predicate passed), so a
run started at checkpoint k tests k, k+1, ..., k+t-1 in order, skipping and
reordering nothing. -/
theorem scan_order (k t : Nat) :
    (∀ s : LoopState, (step s).tested = s.tested ++ [s.checkpoint] ∧
        (step s).checkpoint = s.checkpoint + 1) ∧
    (step^[t] (initState k)).tested = List.range k ++ List.range' k t ∧
    (step^[t] (initState k)).checkpoint = k + t ∧
    ∀ n : Nat, (iterEvents n).countP isCheckpointWrite = 1 := by
  refine ⟨fun s => ⟨rfl, rfl⟩, ?_, ?_, ?_⟩
  · rw [iterate_tested]; rfl
  · rw [iterate_checkpoint]; rfl
  · intro n
    by_cases h1 : n % 1000 = 0 <;> cases h2 : qualifies n <;>
      simp [iterEvents, h1, h2, List.countP_cons, isCheckpointWrite]

/-- C5: the values a run appends to the results file correspond to strictly
increasing exponents (the qualifying members of k, k+1, ..., in order), and
the appended values themselves are strictly increasing. -/
theorem results_increasing (k t : Nat) :
    (step^[t] (initState k)).results =
      ((List.range' k t).filter qualifies).map (fun n => 2 ^ n) ∧
    List.Pairwise (fun a b => a < b) ((List.range' k t).filter qualifies) ∧
    List.Pairwise (fun a b => a < b) ((step^[t] (initState k)).results) := by
  have hres : (step^[t] (initState k)).results =
      ((List.range' k t).filter qualifies).map (fun n => 2 ^ n) := by
    rw [iterate_results]; rfl
  have hpair : List.Pairwise (fun a b => a < b) ((List.range' k t).filter qualifies) :=
    (List.pairwise_lt_range' k t).filter qualifies
  refine ⟨hres, hpair, ?_⟩
  rw [hres]
  exact hpair.map (fun n => 2 ^ n)
    (fun a b hab => Nat.pow_lt_pow_right (by norm_num) hab)

lemma no_multiple_filter : ∀ (n a : Nat),
    (∀ i, a ≤ i → i < a + n → ¬ i % 1000 = 0) →
    (List.range' a n).filter (fun i => decide (i % 1000 = 0)) = [] := by
  intro n
  induction n with
  | zero => intro a _; simp
  | succ n ih =>
    intro a h
    rw [List.range'_succ, List.filter_cons]
    have ha : ¬ a % 1000 = 0 := h a (Nat.le_refl a) (by omega)
    simp only [ha, decide_eq_false_iff_not, if_neg, decide_eq_true_eq]
    rw [if_neg (by simp [ha])]
    exact ih (a + 1) (fun i h1 h2 => h i (by omega) (by omega))

lemma window_one (a : Nat) :
    ((List.range' a 1000).filter (fun i => decide (i % 1000 = 0))).length = 1 := by
  have h1 : a ≤ (a + 999) / 1000 * 1000 := by omega
  have h2 : (a + 999) / 1000 * 1000 < a + 1000 := by omega
  have h3 : ((a + 999) / 1000 * 1000) % 1000 = 0 := by omega
  set m := (a + 999) / 1000 * 1000 with hm
  have hsplit : List.range' a 1000 =
      List.range' a (m - a) ++ List.range' m (1000 - (m - a)) := by
    have hx := List.range'_append_1 a (m - a) (1000 - (m - a))
    rw [show a + (m - a) = m from by omega] at hx
    rw [show (1000 - (m - a)) + (m - a) = 1000 from by omega] at hx
    exact hx.symm
  rw [hsplit, List.filter_append, List.length_append]
  rw [no_multiple_filter (m - a) a (by intro i hi1 hi2 hmod; omega)]
  rw [show 1000 - (m - a) = (999 - (m - a)) + 1 from by omega]
  rw [List.range'_succ, List.filter_cons]
  rw [if_pos (by simpa using h3)]
  rw [no_multiple_filter (999 - (m - a)) (m + 1) (by intro i hi1 hi2 hmod; omega)]
  simp

/-- C8: each iteration prints the current exponent exactly when it is
divisible by 1000, so from any state of the run (hence from any starting
checkpoint) a block of 1000 consecutive iterations emits exactly one
progress print. -/
theorem progress_print_per_block (s : LoopState) :
    (step s).printed =
      s.printed ++ (if s.checkpoint % 1000 = 0 then [s.checkpoint] else []) ∧
    ((step^[1000] s).printed).length = s.printed.length + 1 := by
  refine ⟨rfl, ?_⟩
  rw [iterate_printed, List.length_append, window_one s.checkpoint]

/-- C9: in an iteration whose exponent qualifies, the append of 2 ^ n to the
results file happens strictly before the checkpoint write of n + 1: the
append occurs in the trace, and every trace prefix already containing the
checkpoint write also contains the append. -/
theorem append_before_checkpoint (n : Nat) (h : qualifies n = true) :
    Event.appendedEv (2 ^ n) ∈ iterEvents n ∧
    ∀ k : Nat, Event.wroteCheckpoint (n + 1) ∈ (iterEvents n).take k →
      Event.appendedEv (2 ^ n) ∈ (iterEvents n).take k := by
  by_cases h1 : n % 1000 = 0
  · constructor
    · simp [iterEvents, h1, h]
    · intro k hk
      rcases k with _ | _ | _ | k <;>
        simp_all [iterEvents, h1, h, List.take_succ_cons]
  · constructor
    · simp [iterEvents, h1, h]
    · intro k hk
      rcases k with _ | _ | k <;>
        simp_all [iterEvents, h1, h, List.take_succ_cons]

theorem append_before_checkpoint_witness :
    qualifies 16 = true ∧
      (Event.appendedEv (2 ^ 16) ∈ iterEvents 16 ∧
        ∀ k : Nat, Event.wroteCheckpoint 17 ∈ (iterEvents 16).take k →
          Event.appendedEv (2 ^ 16) ∈ (iterEvents 16).take k) :=
  ⟨by decide, append_before_checkpoint 16 (by decide)⟩


lemma mem_decChars_isDigit : ∀ c ∈ decChars, c.isDigit = true := by decide

lemma mem_decChars_not_ws : ∀ c ∈ decChars, c.isWhitespace = false := by decide

lemma mem_decChars_not_sign : ∀ c ∈ decChars, ¬c = '+' ∧ ¬c = '-' ∧ ¬c = '\n' := by decide

lemma digitChar_mem_decChars (d : Nat) (h : d < 10) : Nat.digitChar d ∈ decChars := by
  interval_cases d <;> decide

lemma accDigit_digitChar (a d : Nat) (h : d < 10) :
    accDigit a (Nat.digitChar d) = 10 * a + d := by
  interval_cases d <;> rfl

lemma toDigitsCore_spec : ∀ (fuel n : Nat), 0 < fuel → n < 10 ^ fuel → ∀ ds : List Char,
    ∃ pre : List Char, Nat.toDigitsCore 10 fuel n ds = pre ++ ds ∧ pre ≠ [] ∧
      (∀ c ∈ pre, c ∈ decChars) ∧
      ∀ a : Nat, pre.foldl accDigit a = a * 10 ^ pre.length + n := by
  intro fuel
  induction fuel with
  | zero => intro n h; omega
  | succ fuel ih =>
    intro n _ hn ds
    by_cases hz : n / 10 = 0
    · refine ⟨[Nat.digitChar (n % 10)], ?_, by simp, ?_, ?_⟩
      · simp [Nat.toDigitsCore, hz]
      · intro c hc
        have : c = Nat.digitChar (n % 10) := by simpa using hc
        rw [this]
        exact digitChar_mem_decChars (n % 10) (by omega)
      · intro a
        rw [List.foldl_cons, List.foldl_nil, accDigit_digitChar a (n % 10) (by omega)]
        simp only [List.length_cons, List.length_nil, pow_one]
        omega
    · have hfuel : 0 < fuel := by
        rcases Nat.eq_zero_or_pos fuel with hf | hf
        · subst hf
          norm_num at hn
          omega
        · exact hf
      have hn10 : n < 10 * 10 ^ fuel := by
        have hp : (10 : Nat) ^ (fuel + 1) = 10 ^ fuel * 10 := pow_succ 10 fuel
        omega
      have hn' : n / 10 < 10 ^ fuel := Nat.div_lt_of_lt_mul hn10
      obtain ⟨pre, heq, hne, hmem, hval⟩ :=
        ih (n / 10) hfuel hn' (Nat.digitChar (n % 10) :: ds)
      refine ⟨pre ++ [Nat.digitChar (n % 10)], ?_, by simp, ?_, ?_⟩
      · simp only [Nat.toDigitsCore, hz, if_false]
        rw [heq]
        simp
      · intro c hc
        rcases List.mem_append.mp hc with h | h
        · exact hmem c h
        · have : c = Nat.digitChar (n % 10) := by simpa using h
          rw [this]
          exact digitChar_mem_decChars (n % 10) (by omega)
      · intro a
        rw [List.foldl_append, hval a, List.foldl_cons, List.foldl_nil,
          accDigit_digitChar _ (n % 10) (by omega)]
        have hdm : 10 * (n / 10) + n % 10 = n := Nat.div_add_mod n 10
        rw [List.length_append, List.length_cons, List.length_nil]
        calc 10 * (a * 10 ^ pre.length + n / 10) + n % 10
            = a * (10 ^ pre.length * 10) + (10 * (n / 10) + n % 10) := by ring
          _ = a * 10 ^ (pre.length + (0 + 1)) + n := by rw [hdm, ← pow_succ]

lemma repr_spec (k : Nat) :
    (Nat.repr k).data ≠ [] ∧ (∀ c ∈ (Nat.repr k).data, c ∈ decChars) ∧
      (Nat.repr k).data.foldl accDigit 0 = k := by
  have hk : k < 10 ^ (k + 1) :=
    lt_of_lt_of_le (Nat.lt_pow_self (by norm_num) k)
      (Nat.pow_le_pow_right (by norm_num) (Nat.le_succ k))
  obtain ⟨pre, heq, hne, hmem, hval⟩ := toDigitsCore_spec (k + 1) k (Nat.succ_pos k) hk []
  have hdata : (Nat.repr k).data = pre := by
    show (Nat.toDigits 10 k).asString.data = pre
    rw [Nat.toDigits, heq]
    simp [List.asString]
  rw [hdata]
  refine ⟨hne, hmem, ?_⟩
  have := hval 0
  simpa using this

lemma dropWhile_ws_digits (pre rest : List Char) (hne : pre ≠ [])
    (hmem : ∀ c ∈ pre, c ∈ decChars) :
    (pre ++ rest).dropWhile Char.isWhitespace = pre ++ rest := by
  cases pre with
  | nil => exact absurd rfl hne
  | cons c l =>
    rw [List.cons_append]
    rw [List.dropWhile_cons_of_neg]
    simp [mem_decChars_not_ws c (hmem c (List.mem_cons_self c l))]

lemma pyStrip_ws_digits (ws1 ws2 pre : List Char)
    (h1 : ∀ c ∈ ws1, c.isWhitespace = true) (h2 : ∀ c ∈ ws2, c.isWhitespace = true)
    (hne : pre ≠ []) (hmem : ∀ c ∈ pre, c ∈ decChars) :
    pyStrip (ws1 ++ pre ++ ws2) = pre := by
  unfold pyStrip
  rw [List.append_assoc, List.dropWhile_append_of_pos (by simpa using h1)]
  rw [dropWhile_ws_digits pre ws2 hne hmem]
  rw [List.reverse_append]
  rw [List.dropWhile_append_of_pos (by simp; intro c hc; simpa using h2 c hc)]
  rw [show pre.reverse = pre.reverse ++ [] from (List.append_nil _).symm]
  rw [dropWhile_ws_digits pre.reverse [] (by simpa using hne)
    (fun c hc => hmem c (List.mem_reverse.mp (by simpa using hc)))]
  simp

lemma pythonInt_digits (s : String) (pre : List Char) (hstrip : pyStrip s.data = pre)
    (hne : pre ≠ []) (hmem : ∀ c ∈ pre, c ∈ decChars) :
    pythonInt s = some (Int.ofNat (pre.foldl accDigit 0)) := by
  unfold pythonInt
  rw [hstrip]
  cases pre with
  | nil => exact absurd rfl hne
  | cons c rest =>
    obtain ⟨hplus, hminus, _⟩ := mem_decChars_not_sign c (hmem c (List.mem_cons_self c rest))
    have hall : (c :: rest).all Char.isDigit = true := by
      rw [List.all_eq_true]
      intro x hx
      exact mem_decChars_isDigit x (hmem x hx)
    dsimp only
    rw [if_neg hplus, if_neg hminus]
    unfold parseDigits
    rw [if_pos ⟨List.cons_ne_nil c rest, hall⟩]
    rfl

/-- C1: qualifies computes 2 ^ n exactly (unbounded Nat arithmetic) and is
true iff no character of the decimal string of 2 ^ n is one of 1, 2, 4, 8;
in particular it is false at 0, 5, 9 and 15. -/
theorem qualifies_spec :
    (∀ n : Nat, qualifies n = true ↔
      ∀ c ∈ (Nat.repr (2 ^ n)).data, ¬(c = '1' ∨ c = '2' ∨ c = '4' ∨ c = '8')) ∧
    qualifies 0 = false ∧ qualifies 5 = false ∧ qualifies 9 = false ∧
      qualifies 15 = false := by
  refine ⟨?_, by decide, by decide, by decide, by decide⟩
  intro n
  show (! (Nat.repr (2 ^ n)).data.any (fun char => digits.contains char)) = true ↔ _
  simp [digits]

/-- C4: writing checkpoint value k with increment_in_file and reading it back
through int() recovers exactly k, for every natural number k (Nat is
unbounded, so this covers values beyond 64 bits). -/
theorem checkpoint_roundtrip (k : Nat) :
    pythonInt (increment_in_file k) = some (k : Int) := by
  obtain ⟨hne, hmem, hval⟩ := repr_spec k
  have hstrip : pyStrip (increment_in_file k).data = (Nat.repr k).data := by
    have h := pyStrip_ws_digits [] [] (Nat.repr k).data (by simp) (by simp) hne hmem
    simpa [increment_in_file] using h
  rw [pythonInt_digits (increment_in_file k) (Nat.repr k).data hstrip hne hmem, hval]
  rfl

/-- C10: int() accepts a checkpoint consisting of the decimal digits of k
surrounded by whitespace (such as a trailing newline) and returns the same
integer as for the bare digit string. -/
theorem whitespace_checkpoint_accepted (k : Nat) (ws1 ws2 : List Char)
    (h1 : ∀ c ∈ ws1, c.isWhitespace = true) (h2 : ∀ c ∈ ws2, c.isWhitespace = true) :
    pythonInt ⟨ws1 ++ (Nat.repr k).data ++ ws2⟩ = some (k : Int) ∧
    pythonInt (Nat.repr k) = some (k : Int) := by
  obtain ⟨hne, hmem, hval⟩ := repr_spec k
  constructor
  · have hstrip : pyStrip (String.mk (ws1 ++ (Nat.repr k).data ++ ws2)).data =
        (Nat.repr k).data :=
      pyStrip_ws_digits ws1 ws2 (Nat.repr k).data h1 h2 hne hmem
    rw [pythonInt_digits _ (Nat.repr k).data hstrip hne hmem, hval]
    rfl
  · have hstrip : pyStrip (Nat.repr k).data = (Nat.repr k).data := by
      have h := pyStrip_ws_digits [] [] (Nat.repr k).data (by simp) (by simp) hne hmem
      simpa using h
    rw [pythonInt_digits (Nat.repr k) (Nat.repr k).data hstrip hne hmem, hval]
    rfl

theorem whitespace_checkpoint_witness :
    (∀ c ∈ [' '], c.isWhitespace = true) ∧ (∀ c ∈ ['\n'], c.isWhitespace = true) ∧
      (pythonInt ⟨[' '] ++ (Nat.repr 42).data ++ ['\n']⟩ = some (42 : Int) ∧
        pythonInt (Nat.repr 42) = some (42 : Int)) :=
  ⟨by decide, by decide,
    whitespace_checkpoint_accepted 42 [' '] ['\n'] (by decide) (by decide)⟩

/-- C6: a missing checkpoint file, or contents int() cannot parse (such as
the empty string or non-numeric text), makes the iteration raise instead of
producing a successor state, so that failing iteration performs no checkpoint
write and no result write; nothing catches the failure. -/
theorem malformed_checkpoint_fatal (fs : Files)
    (h : fs.in_file = none ∨ ∃ s, fs.in_file = some s ∧ pythonInt s = none) :
    iterOnce fs = none ∧ pythonInt "" = none ∧ pythonInt "abc" = none := by
  refine ⟨?_, by decide, by decide⟩
  rcases h with h | ⟨s, hs, hp⟩
  · simp [iterOnce, find_position, h]
  · simp [iterOnce, find_position, hs, hp]

theorem malformed_checkpoint_witness :
    ((Files.mk (some "abc") none).in_file = none ∨
      ∃ s, (Files.mk (some "abc") none).in_file = some s ∧ pythonInt s = none) ∧
    (iterOnce (Files.mk (some "abc") none) = none ∧
      pythonInt "" = none ∧ pythonInt "abc" = none) :=
  ⟨Or.inr ⟨"abc", rfl, by decide⟩,
    malformed_checkpoint_fatal (Files.mk (some "abc") none)
      (Or.inr ⟨"abc", rfl, by decide⟩)⟩

/-- C7: append_if_answer_found appends, byte for byte, exactly the decimal
string of v followed by a single newline; previous contents (empty when the
file was absent, since append mode then creates it) survive as an unchanged
prefix, and the appended portion contains exactly one newline, at its end. -/
theorem append_result_spec (out_file : Option String) (v : Nat) :
    (append_if_answer_found out_file v).data =
      (out_file.getD "").data ++ ((Nat.repr v).data ++ ['\n']) ∧
    ((Nat.repr v).data ++ ['\n']).count '\n' = 1 := by
  constructor
  · show ((out_file.getD "" ++ Nat.repr v) ++ "\n").data = _
    simp [String.data_append]
  · obtain ⟨-, hmem, -⟩ := repr_spec v
    rw [List.count_append]
    have hzero : (Nat.repr v).data.count '\n' = 0 := by
      rw [List.count_eq_zero]
      intro hmemnl
      obtain ⟨-, -, hnl⟩ := mem_decChars_not_sign '\n' (hmem '\n' hmemnl)
      exact hnl rfl
    rw [hzero]
    rfl
